import Mathlib

/-!
Verification of the floating-version-tags action: a shallow embedding of
`src/version.ts` (version extraction), `src/git.ts` (git operations) and
`src/index.ts` (orchestration).  JavaScript strings are modelled as
`List Char`; the external `git` subprocess is modelled by a `World` record
of oracles, and every function returns the trace of subprocess commands it
issued alongside its result.
-/

namespace GitFloat

abbrev Str := List Char

/-- The two regexes in `parseVersion` are deterministic for their inputs:
`(\d+)` before a literal `.` always takes the maximal digit run, `([^+]+)`
always stops at the first `+`, and `(.+)$` takes the whole remainder
provided it contains no line terminator (JS `.` excludes them). -/
def isLineTerm (c : Char) : Bool :=
  c = '\n' || c = '\r' || c = '\u2028' || c = '\u2029'

/-- The `(.+)$` group after a literal `+`: the whole remainder, which must
be non-empty and (since JS `.` excludes line terminators, which the greedy
run cannot cross) free of line terminators. -/
def buildGroup : Str → Option Str
  | [] => none
  | b => if b.any isLineTerm then none else some b

/-- Outcome of the trailing `(?:-([^+]+))?(?:\+(.+))?$` part of the pattern,
applied to what remains after `major.minor.patch`.  The `([^+]+)` group is
the non-empty maximal run of non-`+` characters; if a `+` follows it, the
`(.+)` group must consume everything after that `+`. -/
def matchTail (r : Str) : Option (Option Str × Option Str) :=
  match r with
  | [] => some (none, none)
  | '-' :: t =>
    match t.takeWhile (fun c => c != '+') with
    | [] => none
    | p :: pre' =>
      match t.dropWhile (fun c => c != '+') with
      | [] => some (some (p :: pre'), none)
      | _ :: b =>
        match buildGroup b with
        | none => none
        | some bg => some (some (p :: pre'), some bg)
  | '+' :: b =>
    match buildGroup b with
    | none => none
    | some bg => some (none, some bg)
  | _ => none

/-- The five capture groups of a successful match of
`(\d+)\.(\d+)\.(\d+)(?:-([^+]+))?(?:\+(.+))?`. -/
structure MatchRes where
  d1 : Str
  d2 : Str
  d3 : Str
  pre : Option Str
  build : Option Str
deriving DecidableEq

/-- A `(\d+)` group: the maximal (and, before a literal `.`, the only
possible) non-empty digit run, together with the rest of the string. -/
def takeNum (s : Str) : Option (Str × Str) :=
  match s.takeWhile Char.isDigit with
  | [] => none
  | d :: ds => some (d :: ds, s.dropWhile Char.isDigit)

/-- A literal `\.` in the pattern. -/
def expectDot : Str → Option Str
  | '.' :: t => some t
  | _ => none

/-- Full-string match of `^(\d+)\.(\d+)\.(\d+)(?:-([^+]+))?(?:\+(.+))?$`
(the first, anchored regex in `parseVersion`). -/
def matchCore (s : Str) : Option MatchRes :=
  match takeNum s with
  | none => none
  | some (d1, r1) =>
    match expectDot r1 with
    | none => none
    | some r2 =>
      match takeNum r2 with
      | none => none
      | some (d2, r3) =>
        match expectDot r3 with
        | none => none
        | some r4 =>
          match takeNum r4 with
          | none => none
          | some (d3, r5) =>
            match matchTail r5 with
            | none => none
            | some pb => some ⟨d1, d2, d3, pb.1, pb.2⟩

/-- `String.prototype.match` with the unanchored fallback regex
`(\d+)\.(\d+)\.(\d+)(?:-([^+]+))?(?:\+(.+))?$`: the engine tries start
positions left to right, so the result is the match at the least index
whose suffix matches through to the end of the string. -/
def fallbackMatch : Str → Option MatchRes
  | [] => none
  | c :: t =>
    match matchCore (c :: t) with
    | some r => some r
    | none => fallbackMatch t

/-- `tag.replace(/^refs\/tags\//, '')`. -/
def refsTagsLit : Str := "refs/tags/".toList

def stripRefsTags (s : Str) : Str :=
  if refsTagsLit.isPrefixOf s then s.drop refsTagsLit.length else s

/-- `if (tagName.startsWith('v')) tagName = tagName.substring(1)`. -/
def stripV : Str → Str
  | 'v' :: t => t
  | s => s

def preprocessTag (tag : Str) : Str := stripV (stripRefsTags tag)

/-- `parseInt(digits, 10)` on a string of decimal digits. -/
def digitsToNat (l : Str) : Nat :=
  l.foldl (fun acc c => acc * 10 + (c.toNat - '0'.toNat)) 0

/-- JavaScript truthiness of `match[4]`: an unmatched group is `undefined`
(falsy), a matched group is a string, falsy only when empty. -/
def jsTruthy : Option Str → Bool
  | some s => !s.isEmpty
  | none => false

structure VersionInfo where
  major : Nat
  minor : Nat
  patch : Nat
  original : Str
  isPrerelease : Bool
  prerelease : Option Str
  build : Option Str
deriving DecidableEq

def mkVersionInfo (tag : Str) (m : MatchRes) : VersionInfo :=
  { major := digitsToNat m.d1
    minor := digitsToNat m.d2
    patch := digitsToNat m.d3
    original := tag
    isPrerelease := jsTruthy m.pre
    prerelease := m.pre
    build := m.build }

def invalidVersionMsg (tag : Str) : Str :=
  "Invalid semantic version format: ".toList ++ tag ++
    ". Expected format: v1.2.3 or 1.2.3 (with optional prerelease/build)".toList

/-- `parseVersion` from `src/version.ts`: strip `refs/tags/`, strip one
leading `v`, try the anchored regex, fall back to the end-anchored regex,
throw on failure. -/
def parseVersion (tag : Str) : Except Str VersionInfo :=
  let tagName := preprocessTag tag
  let m :=
    match matchCore tagName with
    | some r => some r
    | none => fallbackMatch tagName
  match m with
  | none => Except.error (invalidVersionMsg tag)
  | some r => Except.ok (mkVersionInfo tag r)

/-- `repr` of a JS number interpolated into a template literal. -/
def natToStr (n : Nat) : Str := (Nat.repr n).toList

/-- `createTagName` from `src/version.ts`. -/
def createTagName (pfx : Str) (major : Nat) (minor : Option Nat) : Str :=
  match minor with
  | some m => pfx ++ natToStr major ++ '.' :: natToStr m
  | none => pfx ++ natToStr major

example : parseVersion "v1.2.3".toList =
    Except.ok ⟨1, 2, 3, "v1.2.3".toList, false, none, none⟩ := rfl

example : parseVersion "release-5.1.0".toList =
    Except.ok ⟨5, 1, 0, "release-5.1.0".toList, false, none, none⟩ := rfl

example : parseVersion "v1.2.3-beta.1+build.456".toList =
    Except.ok ⟨1, 2, 3, "v1.2.3-beta.1+build.456".toList, true,
      some "beta.1".toList, some "build.456".toList⟩ := rfl

example : parseVersion "refs/tags/v1.2.3".toList =
    Except.ok ⟨1, 2, 3, "refs/tags/v1.2.3".toList, false, none, none⟩ := rfl

example : parseVersion "invalid".toList =
    Except.error (invalidVersionMsg "invalid".toList) := rfl

example : parseVersion "v1.2".toList =
    Except.error (invalidVersionMsg "v1.2".toList) := rfl

example : parseVersion "v1.2.x".toList =
    Except.error (invalidVersionMsg "v1.2.x".toList) := rfl

example : createTagName "v".toList 2 (some 3) = "v2.3".toList := by decide

example : createTagName "release-".toList 1 (some 2) = "release-1.2".toList := by decide

/-! ## The git layer (`src/git.ts`)

`@actions/exec` either fails to start the subprocess (e.g. `git` is not
installed — this throws even under `ignoreReturnCode`) or runs it to an
exit code with captured stdout. -/

inductive ExecOutcome where
  | ran (exitCode : Nat) (stdout : Str)
  | failedToStart (msg : Str)
deriving DecidableEq

/-- One `git` subprocess invocation, recorded in the trace of a run. -/
inductive Cmd where
  | revParse (ref : Str)
  | tagWrite (name sha : Str) (force : Bool)
  | push (name : Str) (force : Bool)
deriving DecidableEq

/-- The external repository and tool, as the oracles the code observes:
local and remote tag refs, `rev-parse` behaviour on non-tag refs, and
failure injection for the tool itself, `git tag` and `git push`. -/
structure World where
  toolMissing : Bool
  localTags : List (Str × Str)
  remoteTags : List (Str × Str)
  resolveOther : Str → ExecOutcome
  tagFail : Str → Str → Option Str
  pushReject : Str → Bool → Option Str

def lookupA (k : Str) : List (Str × Str) → Option Str
  | [] => none
  | (k', v) :: rest => if k = k' then some v else lookupA k rest

def insertA (k v : Str) (l : List (Str × Str)) : List (Str × Str) := (k, v) :: l

def gitMissingMsg : Str := "Unable to locate executable file: git".toList

def tagsRef (name : Str) : Str := refsTagsLit ++ name

/-- Behaviour of `git rev-parse <ref>`: a ref of the form `refs/tags/<n>`
resolves through the local tag table (exit code 128 when absent, as git
does for an unknown ref); any other ref is answered by the world's
`resolveOther` oracle. -/
def revParseExec (w : World) (ref : Str) : ExecOutcome :=
  if w.toolMissing then ExecOutcome.failedToStart gitMissingMsg
  else if refsTagsLit.isPrefixOf ref then
    match lookupA (ref.drop refsTagsLit.length) w.localTags with
    | some sha => ExecOutcome.ran 0 sha
    | none => ExecOutcome.ran 128 []
  else w.resolveOther ref

/-- `output.trim()`. -/
def jsTrim (s : Str) : Str :=
  ((s.dropWhile Char.isWhitespace).reverse.dropWhile Char.isWhitespace).reverse

def execFailedMsg (code : Nat) : Str :=
  "The process git failed with exit code ".toList ++ natToStr code

def invalidShaMsg (sha : Str) : Str :=
  "Invalid commit SHA resolved: ".toList ++ sha

def resolveFailMsg (ref msg : Str) : Str :=
  "Failed to resolve commit SHA for \"".toList ++ ref ++ "\": ".toList ++ msg

/-- `getCommitSha` from `src/git.ts`: run `git rev-parse ref`, trim the
output, require a non-empty string of exactly 40 characters, and wrap any
failure in a resolution error. -/
def getCommitSha (w : World) (ref : Str) : Except Str Str × List Cmd :=
  ((match revParseExec w ref with
    | ExecOutcome.failedToStart msg => Except.error (resolveFailMsg ref msg)
    | ExecOutcome.ran code out =>
      if code != 0 then Except.error (resolveFailMsg ref (execFailedMsg code))
      else
        let sha := jsTrim out
        if sha.isEmpty || sha.length != 40 then
          Except.error (resolveFailMsg ref (invalidShaMsg sha))
        else Except.ok sha),
   [Cmd.revParse ref])

/-- `tagExists` from `src/git.ts`: `git rev-parse refs/tags/<name>` with
`ignoreReturnCode`, comparing the exit code to 0; the surrounding
`try/catch` maps ANY thrown error (including a tool that cannot be
invoked) to `false`. -/
def tagExists (w : World) (name : Str) : Bool × List Cmd :=
  ((match revParseExec w (tagsRef name) with
    | ExecOutcome.failedToStart _ => false
    | ExecOutcome.ran code _ => code == 0),
   [Cmd.revParse (tagsRef name)])

structure TagOperationResult where
  tagName : Str
  commitSha : Str
  created : Bool
  updated : Bool
deriving DecidableEq

def tagAlreadyExistsMsg : Str := "tag already exists".toList

/-- The `git tag [-f] <name> <sha>` invocation: fails if the tool is
missing, if a non-forced create hits an existing tag, or if the world's
failure oracle says so; otherwise writes the local tag ref. -/
def runGitTag (w : World) (name sha : Str) (force : Bool) : Except Str World :=
  if w.toolMissing then Except.error gitMissingMsg
  else if !force && (lookupA name w.localTags).isSome then Except.error tagAlreadyExistsMsg
  else
    match w.tagFail name sha with
    | some msg => Except.error msg
    | none => Except.ok { w with localTags := insertA name sha w.localTags }

/-- `createOrUpdateTag` from `src/git.ts`: probe `tagExists`, then either
force-update (`git tag -f`, `updated=true`) or create fresh (`git tag`,
`created=true`). -/
def createOrUpdateTag (w : World) (name sha : Str) :
    Except Str TagOperationResult × World × List Cmd :=
  let probe := tagExists w name
  if probe.1 then
    match runGitTag w name sha true with
    | Except.error e => (Except.error e, w, probe.2 ++ [Cmd.tagWrite name sha true])
    | Except.ok w' =>
      (Except.ok ⟨name, sha, false, true⟩, w', probe.2 ++ [Cmd.tagWrite name sha true])
  else
    match runGitTag w name sha false with
    | Except.error e => (Except.error e, w, probe.2 ++ [Cmd.tagWrite name sha false])
    | Except.ok w' =>
      (Except.ok ⟨name, sha, true, false⟩, w', probe.2 ++ [Cmd.tagWrite name sha false])

def srcRefspecMsg : Str := "src refspec does not match any".toList

def pushFailMsg (name msg : Str) : Str :=
  "Failed to push tag ".toList ++ name ++ ": ".toList ++ msg

/-- `pushTag` from `src/git.ts`: `git push origin <name> [--force]`; a
failure is wrapped in a push error; a success publishes the local tag
value to the remote table. -/
def pushTag (w : World) (name : Str) (force : Bool) :
    Except Str Unit × World × List Cmd :=
  let cmds := [Cmd.push name force]
  if w.toolMissing then (Except.error (pushFailMsg name gitMissingMsg), w, cmds)
  else
    match w.pushReject name force with
    | some msg => (Except.error (pushFailMsg name msg), w, cmds)
    | none =>
      match lookupA name w.localTags with
      | some sha =>
        (Except.ok (), { w with remoteTags := insertA name sha w.remoteTags }, cmds)
      | none => (Except.error (pushFailMsg name srcRefspecMsg), w, cmds)

/-- `verifyTag` from `src/git.ts`: re-resolve `refs/tags/<name>` and
compare with the expected sha; any error yields `false`. -/
def verifyTag (w : World) (name expected : Str) : Bool × List Cmd :=
  let r := getCommitSha w (tagsRef name)
  ((match r.1 with
    | Except.ok sha => sha == expected
    | Except.error _ => false),
   r.2)

/-! ## Orchestration (`src/index.ts`) -/

/-- The raw action inputs as `core.getInput`/`core.getBooleanInput`
deliver them: a missing string input is the empty string. -/
structure RawInputs where
  tag : Str
  refTag : Str
  pfx : Str
  updateMinor : Bool
  ignorePrerelease : Bool
  verbose : Bool

/-- Observable outcome of one run: the `core.setFailed` message if any,
the `majorTag`/`minorTag` outputs that were set, the final repository
world, and the trace of git commands issued. -/
structure RunResult where
  failed : Option Str
  majorTag : Option Str
  minorTag : Option Str
  world : World
  trace : List Cmd

def requiredTagMsg : Str := "Input required and not supplied: tag".toList

def prereleaseGateMsg (tag : Str) (pre : Option Str) : Str :=
  "Prerelease versions are ignored. Tag \"".toList ++ tag ++
    "\" contains prerelease identifier \"".toList ++
    (match pre with | some p => p | none => []) ++ "\"".toList

/-- `run` from `src/index.ts`: read inputs (defaulting `refTag` to `tag`
and the prefix to `v`), parse the version, apply the prerelease gate,
resolve the commit, then create/update, push and (in verbose mode)
verify the major tag and, when requested, the minor tag.  All thrown
errors are caught at the top and become the `failed` message. -/
def run (raw : RawInputs) (w0 : World) : RunResult :=
  if raw.tag.isEmpty then ⟨some requiredTagMsg, none, none, w0, []⟩
  else
    let pfx := if raw.pfx.isEmpty then "v".toList else raw.pfx
    let refTag := if raw.refTag.isEmpty then raw.tag else raw.refTag
    match parseVersion raw.tag with
    | Except.error e => ⟨some e, none, none, w0, []⟩
    | Except.ok vi =>
      if vi.isPrerelease && raw.ignorePrerelease then
        ⟨some (prereleaseGateMsg raw.tag vi.prerelease), none, none, w0, []⟩
      else
        match getCommitSha w0 refTag with
        | (Except.error e, c0) => ⟨some e, none, none, w0, c0⟩
        | (Except.ok sha, c0) =>
          let majorName := createTagName pfx vi.major none
          match createOrUpdateTag w0 majorName sha with
          | (Except.error e, w1, c1) => ⟨some e, none, none, w1, c0 ++ c1⟩
          | (Except.ok mres, w1, c1) =>
            match pushTag w1 majorName mres.updated with
            | (Except.error e, w2, c2) => ⟨some e, none, none, w2, c0 ++ c1 ++ c2⟩
            | (Except.ok _, w2, c2) =>
              let c3 := if raw.verbose then (verifyTag w2 majorName sha).2 else []
              if raw.updateMinor then
                let minorName := createTagName pfx vi.major (some vi.minor)
                match createOrUpdateTag w2 minorName sha with
                | (Except.error e, w3, c4) =>
                  ⟨some e, some majorName, none, w3, c0 ++ c1 ++ c2 ++ c3 ++ c4⟩
                | (Except.ok nres, w3, c4) =>
                  match pushTag w3 minorName nres.updated with
                  | (Except.error e, w4, c5) =>
                    ⟨some e, some majorName, none, w4, c0 ++ c1 ++ c2 ++ c3 ++ c4 ++ c5⟩
                  | (Except.ok _, w4, c5) =>
                    let c6 := if raw.verbose then (verifyTag w4 minorName sha).2 else []
                    ⟨none, some majorName, some minorName, w4,
                      c0 ++ c1 ++ c2 ++ c3 ++ c4 ++ c5 ++ c6⟩
              else ⟨none, some majorName, none, w2, c0 ++ c1 ++ c2 ++ c3⟩

/-! ## Sample worlds and inputs used to instantiate the theorems -/

/-- A well-formed 40-character commit id. -/
def shaA : Str := List.replicate 40 'a'

/-- A healthy world: tool present, no tags anywhere, every non-tag ref
resolving to `shaA`, no injected failures. -/
def wBase : World :=
  { toolMissing := false
    localTags := []
    remoteTags := []
    resolveOther := fun _ => ExecOutcome.ran 0 shaA
    tagFail := fun _ _ => none
    pushReject := fun _ _ => none }

/-- A world in which the git executable cannot be invoked at all. -/
def wNoGit : World := { wBase with toolMissing := true }

/-- A world whose `rev-parse` answers a 40-character but non-hexadecimal
string. -/
def wZed : World :=
  { wBase with resolveOther := fun _ => ExecOutcome.ran 0 (List.replicate 40 'z') }

def protectedTagMsg : Str := "remote rejected: protected tag".toList

/-- A world whose `rev-parse` on non-tag refs fails with exit code 128
(unknown reference). -/
def wUnknownRef : World :=
  { wBase with resolveOther := fun _ => ExecOutcome.ran 128 [] }

/-- A world whose `rev-parse` answers a short, malformed string. -/
def wShortSha : World :=
  { wBase with resolveOther := fun _ => ExecOutcome.ran 0 "abc".toList }

/-- A world that accepts every push except those of tag `v1.2`. -/
def wMinorRejected : World :=
  { wBase with pushReject := fun name _ =>
      if name = "v1.2".toList then some protectedTagMsg else none }

/-- A hexadecimal digit, as used by the conventional 40-character commit
identifier format the specification describes. -/
def isHexChar (c : Char) : Bool :=
  c.isDigit || ('a' ≤ c && c ≤ 'f') || ('A' ≤ c && c ≤ 'F')

/-- Commands that mutate repository state (tag writes and pushes), as
opposed to read-only `rev-parse` probes. -/
def isMutation : Cmd → Bool
  | Cmd.revParse _ => false
  | Cmd.tagWrite _ _ _ => true
  | Cmd.push _ _ => true

/-- Every `push` in the trace is immediately preceded by the `tag` write
of the same tag name, and carries the same force flag as that write. -/
def pushPairedAux : Option Cmd → List Cmd → Bool
  | _, [] => true
  | prev, c :: rest =>
    (match c, prev with
     | Cmd.push n f, some (Cmd.tagWrite n' _ f') => n' == n && f' == f
     | Cmd.push _ _, _ => false
     | _, _ => true) && pushPairedAux (some c) rest

def pushPaired (t : List Cmd) : Bool := pushPairedAux none t

/-! ## Helper lemmas -/

/-- Inversion principle for `matchCore`: a successful anchored match
decomposes the string into the regex's groups. -/
theorem matchCore_elim {s : Str} {r : MatchRes} (h : matchCore s = some r) :
    ∃ d1 r1 r2 d2 r3 r4 d3 r5 pb,
      takeNum s = some (d1, r1) ∧ expectDot r1 = some r2 ∧
      takeNum r2 = some (d2, r3) ∧ expectDot r3 = some r4 ∧
      takeNum r4 = some (d3, r5) ∧ matchTail r5 = some pb ∧
      r = ⟨d1, d2, d3, pb.1, pb.2⟩ := by
  unfold matchCore at h
  split at h
  · exact absurd h (by simp)
  · split at h
    · exact absurd h (by simp)
    · split at h
      · exact absurd h (by simp)
      · split at h
        · exact absurd h (by simp)
        · split at h
          · exact absurd h (by simp)
          · split at h
            · exact absurd h (by simp)
            · rename_i x5 d1 r1 h1 x4 r2 h2 x3 d2 r3 h3 x2 r4 h4 x1 d3 r5 h5 x0 pb h6
              cases h
              exact ⟨d1, r1, r2, d2, r3, r4, d3, r5, pb, h1, h2, h3, h4, h5, h6, rfl⟩

theorem matchTail_pre_ne_nil {r : Str} {pb : Option Str × Option Str}
    (h : matchTail r = some pb) {p : Str} (hp : pb.1 = some p) : p ≠ [] := by
  unfold matchTail at h
  split at h
  · cases h; simp at hp
  · split at h
    · exact absurd h (by simp)
    · split at h
      · cases h
        simp only [Option.some.injEq] at hp
        subst hp
        simp
      · split at h
        · exact absurd h (by simp)
        · cases h
          simp only [Option.some.injEq] at hp
          subst hp
          simp
  · split at h
    · exact absurd h (by simp)
    · cases h; simp at hp
  · exact absurd h (by simp)

theorem matchCore_pre_ne_nil {s : Str} {r : MatchRes}
    (h : matchCore s = some r) {p : Str} (hp : r.pre = some p) : p ≠ [] := by
  obtain ⟨d1, r1, r2, d2, r3, r4, d3, r5, pb, -, -, -, -, -, htail, hr⟩ := matchCore_elim h
  subst hr
  exact matchTail_pre_ne_nil htail hp

theorem fallbackMatch_pre_ne_nil {s : Str} {r : MatchRes}
    (h : fallbackMatch s = some r) {p : Str} (hp : r.pre = some p) : p ≠ [] := by
  induction s with
  | nil => simp [fallbackMatch] at h
  | cons c t ih =>
    unfold fallbackMatch at h
    split at h
    · rename_i hc
      cases h
      exact matchCore_pre_ne_nil hc hp
    · exact ih h

theorem takeNum_shape {s d rest : Str} (h : takeNum s = some (d, rest)) :
    ∃ c t, s = c :: t ∧ c.isDigit = true := by
  unfold takeNum at h
  split at h
  · exact absurd h (by simp)
  · rename_i d' ds htw
    cases s with
    | nil => simp at htw
    | cons c t =>
      refine ⟨c, t, rfl, ?_⟩
      by_contra hc
      simp only [Bool.not_eq_true] at hc
      simp [List.takeWhile, hc] at htw

theorem matchCore_head_digit {s : Str} {r : MatchRes}
    (h : matchCore s = some r) : ∃ c t, s = c :: t ∧ c.isDigit = true := by
  obtain ⟨d1, r1, r2, d2, r3, r4, d3, r5, pb, hd1, -, -, -, -, -, -⟩ := matchCore_elim h
  exact takeNum_shape hd1

theorem matchCore_nil : matchCore ([] : Str) = none := rfl

theorem fallbackMatch_eq_none_matchCore {s : Str}
    (h : fallbackMatch s = none) : matchCore s = none := by
  cases s with
  | nil => exact matchCore_nil
  | cons c t =>
    unfold fallbackMatch at h
    cases hc : matchCore (c :: t) with
    | none => rfl
    | some r => simp [hc] at h

/-- The unanchored fallback regex returns the match of the least start
index whose suffix matches through to the end of the string. -/
theorem fallbackMatch_leftmost {s : Str} {r : MatchRes}
    (h : fallbackMatch s = some r) :
    ∃ i, i ≤ s.length ∧ matchCore (s.drop i) = some r ∧
      ∀ j, j < i → matchCore (s.drop j) = none := by
  induction s with
  | nil => simp [fallbackMatch] at h
  | cons c t ih =>
    unfold fallbackMatch at h
    split at h
    · rename_i hc
      cases h
      exact ⟨0, Nat.zero_le _, hc, fun j hj => absurd hj (Nat.not_lt_zero j)⟩
    · rename_i hc
      obtain ⟨i, hle, hm, hmin⟩ := ih h
      refine ⟨i + 1, Nat.succ_le_succ hle, hm, ?_⟩
      intro j hj
      cases j with
      | zero => exact hc
      | succ j' => exact hmin j' (Nat.lt_of_succ_lt_succ hj)

theorem parseVersion_of_matchCore {tag : Str} {r : MatchRes}
    (h : matchCore (preprocessTag tag) = some r) :
    parseVersion tag = Except.ok (mkVersionInfo tag r) := by
  simp [parseVersion, h]

theorem parseVersion_of_fallback {tag : Str} {r : MatchRes}
    (h0 : matchCore (preprocessTag tag) = none)
    (h1 : fallbackMatch (preprocessTag tag) = some r) :
    parseVersion tag = Except.ok (mkVersionInfo tag r) := by
  simp [parseVersion, h0, h1]

theorem parseVersion_of_none {tag : Str}
    (h : fallbackMatch (preprocessTag tag) = none) :
    parseVersion tag = Except.error (invalidVersionMsg tag) := by
  simp [parseVersion, fallbackMatch_eq_none_matchCore h, h]

theorem parseVersion_shape {tag : Str} {v : VersionInfo}
    (h : parseVersion tag = Except.ok v) :
    ∃ r, (matchCore (preprocessTag tag) = some r ∨
          fallbackMatch (preprocessTag tag) = some r) ∧ v = mkVersionInfo tag r := by
  unfold parseVersion at h
  cases hc : matchCore (preprocessTag tag) with
  | some r =>
    simp [hc] at h
    exact ⟨r, Or.inl rfl, h.symm⟩
  | none =>
    cases hf : fallbackMatch (preprocessTag tag) with
    | some r =>
      simp [hc, hf] at h
      exact ⟨r, Or.inr rfl, h.symm⟩
    | none => simp [hc, hf] at h

theorem refsTagsLit_cons : refsTagsLit = 'r' :: "efs/tags/".toList := rfl

theorem stripRefsTags_append (s : Str) : stripRefsTags (refsTagsLit ++ s) = s := by
  unfold stripRefsTags
  rw [if_pos, List.drop_left]
  rw [ List.isPrefixOf_iff_prefix]
  exact List.prefix_append _ _

theorem stripRefsTags_of_head_ne {c : Char} {t : Str} (h : c ≠ 'r') :
    stripRefsTags (c :: t) = c :: t := by
  unfold stripRefsTags
  rw [if_neg]
  rw [refsTagsLit_cons]
  simp only [List.isPrefixOf, Bool.and_eq_true, beq_iff_eq]
  intro hco
  exact h (hco.1.symm)

theorem stripV_cons_ne {c : Char} {t : Str} (h : c ≠ 'v') : stripV (c :: t) = c :: t := by
  unfold stripV
  split
  · rename_i heq
    cases heq
    exact absurd rfl h
  · rfl

theorem digit_head_preprocess {c : Char} {t : Str} (hc : c.isDigit = true) :
    preprocessTag (c :: t) = c :: t ∧ preprocessTag ('v' :: c :: t) = c :: t := by
  have hr : c ≠ 'r' := by rintro rfl; exact absurd hc (by decide)
  have hv : c ≠ 'v' := by rintro rfl; exact absurd hc (by decide)
  constructor
  · unfold preprocessTag
    rw [stripRefsTags_of_head_ne hr, stripV_cons_ne hv]
  · unfold preprocessTag
    rw [stripRefsTags_of_head_ne (by decide : ('v' : Char) ≠ 'r')]
    rfl

theorem revParseExec_tagsRef (w : World) (name : Str) :
    revParseExec w (tagsRef name) =
      if w.toolMissing then ExecOutcome.failedToStart gitMissingMsg
      else
        match lookupA name w.localTags with
        | some sha => ExecOutcome.ran 0 sha
        | none => ExecOutcome.ran 128 [] := by
  have hpre : refsTagsLit.isPrefixOf (refsTagsLit ++ name) = true := by
    rw [ List.isPrefixOf_iff_prefix]
    exact List.prefix_append _ _
  simp [revParseExec, tagsRef, hpre, List.drop_left]

theorem lookupA_insert_self (k v : Str) (l : List (Str × Str)) :
    lookupA k (insertA k v l) = some v := by
  simp [insertA, lookupA]

theorem lookupA_insert_ne {k k' : Str} (h : k ≠ k') (v : Str) (l : List (Str × Str)) :
    lookupA k (insertA k' v l) = lookupA k l := by
  simp [insertA, lookupA, h]

theorem tagExists_val (w : World) (name : Str) :
    (tagExists w name).1 = (!w.toolMissing && (lookupA name w.localTags).isSome) := by
  simp only [tagExists, revParseExec_tagsRef]
  cases htm : w.toolMissing <;> cases hl : lookupA name w.localTags <;> simp [htm, hl]

theorem tagExists_trace (w : World) (name : Str) :
    (tagExists w name).2 = [Cmd.revParse (tagsRef name)] := rfl

theorem getCommitSha_trace (w : World) (ref : Str) :
    (getCommitSha w ref).2 = [Cmd.revParse ref] := rfl

theorem verifyTag_trace (w : World) (name expected : Str) :
    (verifyTag w name expected).2 = [Cmd.revParse (tagsRef name)] := rfl

theorem runGitTag_ok {w : World} {name sha : Str} {force : Bool} {w' : World}
    (h : runGitTag w name sha force = Except.ok w') :
    w' = { w with localTags := insertA name sha w.localTags } := by
  unfold runGitTag at h
  split at h
  · simp at h
  · split at h
    · simp at h
    · split at h
      · simp at h
      · simpa using h.symm

theorem createOrUpdateTag_ok {w : World} {name sha : Str} {res : TagOperationResult}
    {w' : World} {cs : List Cmd}
    (h : createOrUpdateTag w name sha = (Except.ok res, w', cs)) :
    res = ⟨name, sha, !(tagExists w name).1, (tagExists w name).1⟩ ∧
    w' = { w with localTags := insertA name sha w.localTags } ∧
    cs = [Cmd.revParse (tagsRef name), Cmd.tagWrite name sha (tagExists w name).1] := by
  simp only [createOrUpdateTag] at h
  split at h
  · rename_i hex
    split at h
    · simp at h
    · rename_i w'' hgt
      simp only [Prod.mk.injEq, Except.ok.injEq] at h
      obtain ⟨h1, h2, h3⟩ := h
      subst h1; subst h2; subst h3
      exact ⟨by simp [hex], runGitTag_ok hgt, by simp [hex, tagExists_trace]⟩
  · rename_i hex
    split at h
    · simp at h
    · rename_i w'' hgt
      simp only [Prod.mk.injEq, Except.ok.injEq] at h
      obtain ⟨h1, h2, h3⟩ := h
      subst h1; subst h2; subst h3
      simp only [Bool.not_eq_true] at hex
      exact ⟨by simp [hex], runGitTag_ok hgt, by simp [hex, tagExists_trace]⟩

theorem createOrUpdateTag_err {w : World} {name sha : Str} {e : Str}
    {w' : World} {cs : List Cmd}
    (h : createOrUpdateTag w name sha = (Except.error e, w', cs)) :
    w' = w ∧
    cs = [Cmd.revParse (tagsRef name), Cmd.tagWrite name sha (tagExists w name).1] := by
  simp only [createOrUpdateTag] at h
  split at h
  · rename_i hex
    split at h
    · simp only [Prod.mk.injEq, Except.error.injEq] at h
      obtain ⟨-, h2, h3⟩ := h
      subst h2; subst h3
      exact ⟨rfl, by simp [hex, tagExists_trace]⟩
    · simp at h
  · rename_i hex
    split at h
    · simp only [Prod.mk.injEq, Except.error.injEq] at h
      obtain ⟨-, h2, h3⟩ := h
      subst h2; subst h3
      simp only [Bool.not_eq_true] at hex
      exact ⟨rfl, by simp [hex, tagExists_trace]⟩
    · simp at h

theorem pushTag_ok {w : World} {name : Str} {force : Bool} {u : Unit}
    {w' : World} {cs : List Cmd}
    (h : pushTag w name force = (Except.ok u, w', cs)) :
    ∃ sha, lookupA name w.localTags = some sha ∧
      w' = { w with remoteTags := insertA name sha w.remoteTags } ∧
      cs = [Cmd.push name force] := by
  simp only [pushTag] at h
  split at h
  · simp at h
  · split at h
    · simp at h
    · split at h
      · rename_i sha hl
        simp only [Prod.mk.injEq] at h
        obtain ⟨-, h2, h3⟩ := h
        subst h2; subst h3
        exact ⟨sha, hl, rfl, rfl⟩
      · simp at h

theorem pushTag_err {w : World} {name : Str} {force : Bool} {e : Str}
    {w' : World} {cs : List Cmd}
    (h : pushTag w name force = (Except.error e, w', cs)) :
    w' = w ∧ cs = [Cmd.push name force] := by
  simp only [pushTag] at h
  split at h
  · simp only [Prod.mk.injEq, Except.error.injEq] at h
    exact ⟨h.2.1.symm, h.2.2.symm⟩
  · split at h
    · simp only [Prod.mk.injEq, Except.error.injEq] at h
      exact ⟨h.2.1.symm, h.2.2.symm⟩
    · split at h
      · simp at h
      · simp only [Prod.mk.injEq, Except.error.injEq] at h
        exact ⟨h.2.1.symm, h.2.2.symm⟩

theorem createTagName_major_ne_minor (pfx : Str) (a b : Nat) :
    createTagName pfx a none ≠ createTagName pfx a (some b) := by
  intro h
  have hl := congrArg List.length h
  simp [createTagName, List.length_append] at hl

/-! ## The claims -/

/-- C1: `parseVersion` first removes a leading `refs/tags/` segment and
then exactly one leading `v`; it matches the whole string against the
anchored `major.minor.patch[-pre][+build]` pattern, and retries with the
end-anchored pattern — taking the match at the least start index — if and
only if the anchored match fails, so that `release-5.1.0` parses to
5.1.0; when neither pass matches, it fails with an error and no
`VersionInfo` is produced. -/
theorem c1_two_pass_extraction :
    (∀ s : Str, stripRefsTags (refsTagsLit ++ s) = s) ∧
    (∀ s : Str, stripV ('v' :: s) = s) ∧
    (∀ tag r, matchCore (preprocessTag tag) = some r →
      parseVersion tag = Except.ok (mkVersionInfo tag r)) ∧
    (∀ tag r, matchCore (preprocessTag tag) = none →
      fallbackMatch (preprocessTag tag) = some r →
      parseVersion tag = Except.ok (mkVersionInfo tag r)) ∧
    (∀ s r, fallbackMatch s = some r →
      ∃ i, i ≤ s.length ∧ matchCore (s.drop i) = some r ∧
        ∀ j, j < i → matchCore (s.drop j) = none) ∧
    (∀ tag, fallbackMatch (preprocessTag tag) = none →
      parseVersion tag = Except.error (invalidVersionMsg tag)) ∧
    parseVersion "release-5.1.0".toList =
      Except.ok ⟨5, 1, 0, "release-5.1.0".toList, false, none, none⟩ := by
  refine ⟨stripRefsTags_append, fun s => rfl, ?_, ?_, ?_, ?_, rfl⟩
  · exact fun tag r h => parseVersion_of_matchCore h
  · exact fun tag r h0 h1 => parseVersion_of_fallback h0 h1
  · exact fun s r h => fallbackMatch_leftmost h
  · exact fun tag h => parseVersion_of_none h

/-- C1 witness: the two-pass behaviour instantiated on `v1.2.3` (anchored
pass), `release-5.1.0` (fallback pass, least start index 8) and `invalid`
(no match). -/
theorem c1_two_pass_extraction_witness :
    parseVersion "v1.2.3".toList =
      Except.ok (mkVersionInfo "v1.2.3".toList ⟨"1".toList, "2".toList, "3".toList, none, none⟩) ∧
    parseVersion "release-5.1.0".toList =
      Except.ok (mkVersionInfo "release-5.1.0".toList
        ⟨"5".toList, "1".toList, "0".toList, none, none⟩) ∧
    (∃ i, i ≤ ("release-5.1.0".toList).length ∧
      matchCore (("release-5.1.0".toList).drop i) =
        some ⟨"5".toList, "1".toList, "0".toList, none, none⟩ ∧
      ∀ j, j < i → matchCore (("release-5.1.0".toList).drop j) = none) ∧
    parseVersion "invalid".toList = Except.error (invalidVersionMsg "invalid".toList) := by
  refine ⟨?_, ?_, ?_, ?_⟩
  · exact c1_two_pass_extraction.2.2.1 _ _ (by decide)
  · exact c1_two_pass_extraction.2.2.2.1 _ _ (by decide) (by decide)
  · exact c1_two_pass_extraction.2.2.2.2.1 _ _ (by decide)
  · exact c1_two_pass_extraction.2.2.2.2.2.1 _ (by decide)

/-- C7: every `VersionInfo` returned by a successful `parseVersion` has
`isPrerelease` true exactly when a non-empty prerelease was captured, and
retains the original tag; parsing is all-or-nothing: the result is either
a full `VersionInfo` or the single parse error, never anything partial. -/
theorem c7_versioninfo_invariant :
    (∀ tag v, parseVersion tag = Except.ok v →
      (v.isPrerelease = true ↔ ∃ p, v.prerelease = some p ∧ p ≠ []) ∧
      v.original = tag) ∧
    (∀ tag, (∃ v, parseVersion tag = Except.ok v) ∨
      parseVersion tag = Except.error (invalidVersionMsg tag)) := by
  constructor
  · intro tag v h
    obtain ⟨r, hr, hv⟩ := parseVersion_shape h
    subst hv
    refine ⟨?_, rfl⟩
    cases hp : r.pre with
    | none =>
      simp only [mkVersionInfo, jsTruthy, hp]
      simp
    | some p =>
      have hpne : p ≠ [] := by
        cases hr with
        | inl hc => exact matchCore_pre_ne_nil hc hp
        | inr hf => exact fallbackMatch_pre_ne_nil hf hp
      simp only [mkVersionInfo, jsTruthy, hp]
      cases p with
      | nil => exact absurd rfl hpne
      | cons a t => simp
  · intro tag
    unfold parseVersion
    cases hc : matchCore (preprocessTag tag) with
    | some r => exact Or.inl ⟨mkVersionInfo tag r, by simp [hc]⟩
    | none =>
      cases hf : fallbackMatch (preprocessTag tag) with
      | some r => exact Or.inl ⟨mkVersionInfo tag r, by simp [hc, hf]⟩
      | none => exact Or.inr (by simp [hc, hf])

/-- C7 witness: the invariant instantiated at `v1.2.3-beta.1`. -/
theorem c7_versioninfo_invariant_witness :
    parseVersion "v1.2.3-beta.1".toList =
      Except.ok ⟨1, 2, 3, "v1.2.3-beta.1".toList, true, some "beta.1".toList, none⟩ ∧
    ((⟨1, 2, 3, "v1.2.3-beta.1".toList, true, some "beta.1".toList, none⟩ :
        VersionInfo).isPrerelease = true ↔
      ∃ p, (⟨1, 2, 3, "v1.2.3-beta.1".toList, true, some "beta.1".toList, none⟩ :
        VersionInfo).prerelease = some p ∧ p ≠ []) ∧
    (⟨1, 2, 3, "v1.2.3-beta.1".toList, true, some "beta.1".toList, none⟩ :
        VersionInfo).original = "v1.2.3-beta.1".toList := by
  have h := c7_versioninfo_invariant.1 "v1.2.3-beta.1".toList
    ⟨1, 2, 3, "v1.2.3-beta.1".toList, true, some "beta.1".toList, none⟩ rfl
  exact ⟨rfl, h.1, h.2⟩

/-- C8: for every string that fully matches the anchored
`major.minor.patch[-pre][+build]` pattern, parsing with and without a
leading `v` yields identical components (only `original` differs); and
`refs/tags/v1.2.3` parses identically to `v1.2.3` except for `original`. -/
theorem c8_v_prefix_cosmetic :
    (∀ s r, matchCore s = some r →
      ∃ v v', parseVersion ('v' :: s) = Except.ok v ∧ parseVersion s = Except.ok v' ∧
        v.major = v'.major ∧ v.minor = v'.minor ∧ v.patch = v'.patch ∧
        v.prerelease = v'.prerelease ∧ v.build = v'.build ∧
        v.isPrerelease = v'.isPrerelease ∧
        v.original = 'v' :: s ∧ v'.original = s) ∧
    (∃ v v', parseVersion "refs/tags/v1.2.3".toList = Except.ok v ∧
      parseVersion "v1.2.3".toList = Except.ok v' ∧
      v.major = v'.major ∧ v.minor = v'.minor ∧ v.patch = v'.patch ∧
      v.prerelease = v'.prerelease ∧ v.build = v'.build ∧
      v.isPrerelease = v'.isPrerelease ∧ v.original ≠ v'.original) := by
  constructor
  · intro s r h
    obtain ⟨c, t, rfl, hc⟩ := matchCore_head_digit h
    obtain ⟨hpre1, hpre2⟩ := digit_head_preprocess (t := t) hc
    refine ⟨mkVersionInfo ('v' :: c :: t) r, mkVersionInfo (c :: t) r, ?_, ?_,
      rfl, rfl, rfl, rfl, rfl, rfl, rfl, rfl⟩
    · exact parseVersion_of_matchCore (by rw [hpre2]; exact h)
    · exact parseVersion_of_matchCore (by rw [hpre1]; exact h)
  · refine ⟨⟨1, 2, 3, "refs/tags/v1.2.3".toList, false, none, none⟩,
      ⟨1, 2, 3, "v1.2.3".toList, false, none, none⟩,
      rfl, rfl, rfl, rfl, rfl, rfl, rfl, rfl, by decide⟩

/-- C8 witness: instantiated at `1.2.3-beta.1+build.456`. -/
theorem c8_v_prefix_cosmetic_witness :
    ∃ v v', parseVersion "v1.2.3-beta.1+build.456".toList = Except.ok v ∧
      parseVersion "1.2.3-beta.1+build.456".toList = Except.ok v' ∧
      v.major = v'.major ∧ v.minor = v'.minor ∧ v.patch = v'.patch ∧
      v.prerelease = v'.prerelease ∧ v.build = v'.build ∧
      v.isPrerelease = v'.isPrerelease ∧
      v.original = 'v' :: "1.2.3-beta.1+build.456".toList ∧
      v'.original = "1.2.3-beta.1+build.456".toList :=
  c8_v_prefix_cosmetic.1 "1.2.3-beta.1+build.456".toList
    ⟨"1".toList, "2".toList, "3".toList, some "beta.1".toList, some "build.456".toList⟩
    (by decide)

/-- C3: `createOrUpdateTag` returns, whenever it returns a result at all,
a `TagOperationResult` with exactly one of `created`/`updated` set:
`updated` exactly when `tagExists` reported the tag present beforehand
(force overwrite), `created` exactly when it did not (fresh creation). -/
theorem c3_created_xor_updated :
    ∀ w name sha res w' cs,
      createOrUpdateTag w name sha = (Except.ok res, w', cs) →
      res.created = !res.updated ∧ res.updated = (tagExists w name).1 ∧
      res.tagName = name ∧ res.commitSha = sha := by
  intro w name sha res w' cs h
  simp only [createOrUpdateTag] at h
  split at h
  · rename_i hex
    split at h
    · simp at h
    · simp only [Prod.mk.injEq, Except.ok.injEq] at h
      obtain ⟨h1, -, -⟩ := h
      subst h1
      exact ⟨rfl, hex.symm, rfl, rfl⟩
  · rename_i hex
    split at h
    · simp at h
    · simp only [Prod.mk.injEq, Except.ok.injEq] at h
      obtain ⟨h1, -, -⟩ := h
      subst h1
      simp only [Bool.not_eq_true] at hex
      exact ⟨rfl, hex.symm, rfl, rfl⟩

/-- C3 witness: creating a fresh tag in the empty world and force-updating
it in a world where it already exists. -/
theorem c3_created_xor_updated_witness :
    createOrUpdateTag wBase "v1".toList shaA =
      (Except.ok ⟨"v1".toList, shaA, true, false⟩,
        { wBase with localTags := [("v1".toList, shaA)] },
        [Cmd.revParse (tagsRef "v1".toList), Cmd.tagWrite "v1".toList shaA false]) ∧
    ((true : Bool) = !false ∧ (false : Bool) = (tagExists wBase "v1".toList).1 ∧
      ("v1".toList : Str) = "v1".toList ∧ shaA = shaA) := by
  constructor
  · rfl
  · exact c3_created_xor_updated wBase "v1".toList shaA _ _ _ rfl

/-- C5 counterexample: `getCommitSha` accepts a 40-character output of
`z` characters, which is not hexadecimal — the claimed rejection of
non-hexadecimal content does not happen. -/
theorem c5_counterexample :
    (getCommitSha wZed "main".toList).1 = Except.ok (List.replicate 40 'z') ∧
    (List.replicate 40 'z').all isHexChar = false := by
  exact ⟨rfl, by decide⟩

/-- C5 (amended): `getCommitSha` validates only that the trimmed output
is non-empty and exactly 40 characters long; it fails with a resolution
error when the tool cannot run, when the reference does not resolve
(non-zero exit), or when the trimmed output does not have length 40 —
but it never checks that the characters are hexadecimal. -/
theorem c5_sha_validation :
    (∀ w ref sha, (getCommitSha w ref).1 = Except.ok sha →
      sha.length = 40 ∧ sha ≠ [] ∧
      ∃ out, revParseExec w ref = ExecOutcome.ran 0 out ∧ sha = jsTrim out) ∧
    (∀ w ref msg, revParseExec w ref = ExecOutcome.failedToStart msg →
      (getCommitSha w ref).1 = Except.error (resolveFailMsg ref msg)) ∧
    (∀ w ref code out, revParseExec w ref = ExecOutcome.ran code out → code ≠ 0 →
      (getCommitSha w ref).1 = Except.error (resolveFailMsg ref (execFailedMsg code))) ∧
    (∀ w ref out, revParseExec w ref = ExecOutcome.ran 0 out → (jsTrim out).length ≠ 40 →
      (getCommitSha w ref).1 =
        Except.error (resolveFailMsg ref (invalidShaMsg (jsTrim out)))) := by
  refine ⟨?_, ?_, ?_, ?_⟩
  · intro w ref sha h
    simp only [getCommitSha] at h
    cases hrev : revParseExec w ref with
    | failedToStart msg => rw [hrev] at h; simp at h
    | ran code out =>
      rw [hrev] at h
      simp only at h
      split at h
      · simp at h
      · rename_i hcode
        split at h
        · simp at h
        · rename_i hlen
          simp only [Except.ok.injEq] at h
          subst h
          have hc0 : code = 0 := by simpa using hcode
          subst hc0
          have hl : ¬((jsTrim out).isEmpty = true ∨ (jsTrim out).length ≠ 40) := by
            simpa [Bool.or_eq_true, bne_iff_ne] using hlen
          push_neg at hl
          refine ⟨hl.2, ?_, out, rfl, rfl⟩
          intro hnil
          exact hl.1 (by rw [hnil]; rfl)
  · intro w ref msg h
    simp [getCommitSha, h]
  · intro w ref code out h hc
    have hcond : (code != 0) = true := by simpa [bne_iff_ne] using hc
    simp [getCommitSha, h, hcond]
  · intro w ref out h hlen
    have hcond : ((jsTrim out).isEmpty || (jsTrim out).length != 40) = true := by
      simp [bne_iff_ne, hlen]
    simp [getCommitSha, h, hcond]

/-- C5 witness: the validation behaviour instantiated on a healthy world,
a missing tool, an unknown reference, and a malformed (short) output. -/
theorem c5_sha_validation_witness :
    (shaA.length = 40 ∧ shaA ≠ [] ∧
      ∃ out, revParseExec wBase "main".toList = ExecOutcome.ran 0 out ∧ shaA = jsTrim out) ∧
    (getCommitSha wNoGit "main".toList).1 =
      Except.error (resolveFailMsg "main".toList gitMissingMsg) ∧
    (getCommitSha wUnknownRef "main".toList).1 =
      Except.error (resolveFailMsg "main".toList (execFailedMsg 128)) ∧
    (getCommitSha wShortSha "main".toList).1 =
      Except.error (resolveFailMsg "main".toList (invalidShaMsg (jsTrim "abc".toList))) := by
  refine ⟨?_, ?_, ?_, ?_⟩
  · exact c5_sha_validation.1 wBase "main".toList shaA rfl
  · exact c5_sha_validation.2.1 wNoGit "main".toList gitMissingMsg rfl
  · exact c5_sha_validation.2.2.1 wUnknownRef "main".toList 128 [] rfl (by decide)
  · exact c5_sha_validation.2.2.2 wShortSha "main".toList "abc".toList rfl (by decide)

/-- C6 counterexample: in a world where the git tool cannot be invoked at
all, the probe fails to start, yet `tagExists` still answers `false`
instead of surfacing an error — the two failure shapes are conflated. -/
theorem c6_counterexample :
    revParseExec wNoGit (tagsRef "v1".toList) = ExecOutcome.failedToStart gitMissingMsg ∧
    (tagExists wNoGit "v1".toList).1 = false := ⟨rfl, rfl⟩

/-- C6 (amended): `tagExists` returns `true` exactly when the probe ran
and exited 0; every failure — the normal not-found exit as well as a tool
invocation that cannot even be attempted — is mapped to `false` by the
catch-all, so invocation failures are NOT kept distinct from the normal
negative result. -/
theorem c6_failure_shapes :
    (∀ w name, ((tagExists w name).1 = true ↔
      ∃ out, revParseExec w (tagsRef name) = ExecOutcome.ran 0 out)) ∧
    (∀ w name msg, revParseExec w (tagsRef name) = ExecOutcome.failedToStart msg →
      (tagExists w name).1 = false) := by
  constructor
  · intro w name
    cases hrev : revParseExec w (tagsRef name) with
    | ran code out => simp [tagExists, hrev]
    | failedToStart m => simp [tagExists, hrev]
  · intro w name msg h
    simp [tagExists, h]

/-- C6 witness: the amended behaviour instantiated on the healthy world
and on the tool-missing world. -/
theorem c6_failure_shapes_witness :
    ((tagExists wBase "v1".toList).1 = true ↔
      ∃ out, revParseExec wBase (tagsRef "v1".toList) = ExecOutcome.ran 0 out) ∧
    (tagExists wNoGit "v1".toList).1 = false :=
  ⟨c6_failure_shapes.1 wBase "v1".toList,
   c6_failure_shapes.2 wNoGit "v1".toList gitMissingMsg rfl⟩

/-- C2: version parsing and the prerelease gate run strictly before any
git activity: when the parsed version is a prerelease and
`ignorePrerelease` is set, the run reports a user-facing failure, issues
no git command at all (empty trace — no commit resolution, no tag write,
no push), leaves the world untouched, and sets no outputs. -/
theorem c2_gate_before_any_git :
    ∀ raw w0 v, parseVersion raw.tag = Except.ok v → v.isPrerelease = true →
      raw.ignorePrerelease = true →
      (run raw w0).failed.isSome = true ∧ (run raw w0).trace = [] ∧
      (run raw w0).world = w0 ∧ (run raw w0).majorTag = none ∧
      (run raw w0).minorTag = none := by
  intro raw w0 v hp hpre hig
  cases ht : raw.tag.isEmpty with
  | true => simp [run, ht]
  | false => simp [run, ht, hp, hpre, hig]

/-- C2 witness: a prerelease tag under the default gate. -/
theorem c2_gate_before_any_git_witness :
    parseVersion "v4.0.0-beta.1".toList =
      Except.ok ⟨4, 0, 0, "v4.0.0-beta.1".toList, true, some "beta.1".toList, none⟩ ∧
    ((run ⟨"v4.0.0-beta.1".toList, [], [], false, true, false⟩ wBase).failed.isSome = true ∧
      (run ⟨"v4.0.0-beta.1".toList, [], [], false, true, false⟩ wBase).trace = [] ∧
      (run ⟨"v4.0.0-beta.1".toList, [], [], false, true, false⟩ wBase).world = wBase ∧
      (run ⟨"v4.0.0-beta.1".toList, [], [], false, true, false⟩ wBase).majorTag = none ∧
      (run ⟨"v4.0.0-beta.1".toList, [], [], false, true, false⟩ wBase).minorTag = none) :=
  ⟨rfl, c2_gate_before_any_git ⟨"v4.0.0-beta.1".toList, [], [], false, true, false⟩ wBase
    ⟨4, 0, 0, "v4.0.0-beta.1".toList, true, some "beta.1".toList, none⟩ rfl rfl rfl⟩

/-- C4: in every run, each push command is immediately preceded by the
local tag write for the same tag and carries exactly that write's force
flag; and a create-or-update's tag write is forced exactly when the
operation reported `updated` — so a reconciled tag is force-pushed iff the
local operation was an update, and a freshly created tag is pushed
without force. -/
theorem c4_force_push_iff_updated :
    (∀ raw w0, pushPaired (run raw w0).trace = true) ∧
    (∀ w name sha res w' cs, createOrUpdateTag w name sha = (Except.ok res, w', cs) →
      cs = [Cmd.revParse (tagsRef name), Cmd.tagWrite name sha res.updated]) := by
  constructor
  · intro raw w0
    cases ht : raw.tag.isEmpty with
    | true => simp [run, ht, pushPaired, pushPairedAux]
    | false =>
      cases hp : parseVersion raw.tag with
      | error e => simp [run, ht, hp, pushPaired, pushPairedAux]
      | ok vi =>
        cases hgate : vi.isPrerelease && raw.ignorePrerelease with
        | true => simp [run, ht, hp, hgate, pushPaired, pushPairedAux]
        | false =>
          rcases hgc : getCommitSha w0 (if raw.refTag.isEmpty then raw.tag else raw.refTag)
            with ⟨r0, c0⟩
          have hc0 : c0 = [Cmd.revParse (if raw.refTag.isEmpty then raw.tag else raw.refTag)] := by
            have h2 := congrArg Prod.snd hgc
            rw [getCommitSha_trace] at h2
            simpa using h2.symm
          subst hc0
          cases r0 with
          | error e =>
            simp only [run, ht, hp, hgate, hgc, Bool.false_eq_true, eq_self_iff_true,
              ite_true, ite_false]
            simp [pushPaired, pushPairedAux]
          | ok sha =>
            rcases hcou : createOrUpdateTag w0
                (createTagName (if raw.pfx.isEmpty then "v".toList else raw.pfx) vi.major none)
                sha with ⟨r1, w1, c1⟩
            cases r1 with
            | error e =>
              obtain ⟨hw1, hc1⟩ := createOrUpdateTag_err hcou
              subst hc1
              simp only [run, ht, hp, hgate, hgc, hcou, Bool.false_eq_true, eq_self_iff_true,
                ite_true, ite_false]
              simp [pushPaired, pushPairedAux]
            | ok mres =>
              obtain ⟨hres, hw1, hc1⟩ := createOrUpdateTag_ok hcou
              subst hc1
              rcases hpush : pushTag w1
                  (createTagName (if raw.pfx.isEmpty then "v".toList else raw.pfx) vi.major none)
                  mres.updated with ⟨r2, w2, c2⟩
              have hfm : mres.updated = (tagExists w0
                  (createTagName (if raw.pfx.isEmpty then "v".toList else raw.pfx)
                    vi.major none)).1 := by rw [hres]
              cases r2 with
              | error e =>
                obtain ⟨hw2, hc2⟩ := pushTag_err hpush
                subst hc2
                simp only [run, ht, hp, hgate, hgc, hcou, hpush, Bool.false_eq_true,
                  eq_self_iff_true, ite_true, ite_false]
                simp [pushPaired, pushPairedAux, hfm]
              | ok u =>
                obtain ⟨sha1, hl1, hw2, hc2⟩ := pushTag_ok hpush
                subst hc2
                cases hum : raw.updateMinor with
                | false =>
                  cases hv : raw.verbose with
                  | false =>
                    simp only [run, ht, hp, hgate, hgc, hcou, hpush, hv, hum,
                      Bool.false_eq_true, eq_self_iff_true, ite_true, ite_false]
                    simp [pushPaired, pushPairedAux, hfm]
                  | true =>
                    simp only [run, ht, hp, hgate, hgc, hcou, hpush, hv, hum,
                      Bool.false_eq_true, eq_self_iff_true, ite_true, ite_false, verifyTag_trace]
                    simp [pushPaired, pushPairedAux, hfm]
                | true =>
                  rcases hcou2 : createOrUpdateTag w2
                      (createTagName (if raw.pfx.isEmpty then "v".toList else raw.pfx)
                        vi.major (some vi.minor))
                      sha with ⟨r3, w3, c4⟩
                  cases r3 with
                  | error e =>
                    obtain ⟨hw3, hc4⟩ := createOrUpdateTag_err hcou2
                    subst hc4
                    cases hv : raw.verbose with
                    | false =>
                      simp only [run, ht, hp, hgate, hgc, hcou, hpush, hv, hum, hcou2,
                        Bool.false_eq_true, eq_self_iff_true, ite_true, ite_false]
                      simp [pushPaired, pushPairedAux, hfm]
                    | true =>
                      simp only [run, ht, hp, hgate, hgc, hcou, hpush, hv, hum, hcou2,
                        Bool.false_eq_true, eq_self_iff_true, ite_true, ite_false,
                        verifyTag_trace]
                      simp [pushPaired, pushPairedAux, hfm]
                  | ok nres =>
                    obtain ⟨hres2, hw3, hc4⟩ := createOrUpdateTag_ok hcou2
                    subst hc4
                    rcases hpush2 : pushTag w3
                        (createTagName (if raw.pfx.isEmpty then "v".toList else raw.pfx)
                          vi.major (some vi.minor))
                        nres.updated with ⟨r4, w4, c5⟩
                    have hfm2 : nres.updated = (tagExists w2
                        (createTagName (if raw.pfx.isEmpty then "v".toList else raw.pfx)
                          vi.major (some vi.minor))).1 := by rw [hres2]
                    cases r4 with
                    | error e =>
                      obtain ⟨hw4, hc5⟩ := pushTag_err hpush2
                      subst hc5
                      cases hv : raw.verbose with
                      | false =>
                        simp only [run, ht, hp, hgate, hgc, hcou, hpush, hv, hum,
                          hcou2, hpush2, Bool.false_eq_true, eq_self_iff_true,
                          ite_true, ite_false]
                        simp [pushPaired, pushPairedAux, hfm, hfm2]
                      | true =>
                        simp only [run, ht, hp, hgate, hgc, hcou, hpush, hv, hum,
                          hcou2, hpush2, Bool.false_eq_true, eq_self_iff_true,
                          ite_true, ite_false, verifyTag_trace]
                        simp [pushPaired, pushPairedAux, hfm, hfm2]
                    | ok u2 =>
                      obtain ⟨sha2, hl2, hw4, hc5⟩ := pushTag_ok hpush2
                      subst hc5
                      cases hv : raw.verbose with
                      | false =>
                        simp only [run, ht, hp, hgate, hgc, hcou, hpush, hv, hum,
                          hcou2, hpush2, Bool.false_eq_true, eq_self_iff_true,
                          ite_true, ite_false]
                        simp [pushPaired, pushPairedAux, hfm, hfm2]
                      | true =>
                        simp only [run, ht, hp, hgate, hgc, hcou, hpush, hv, hum,
                          hcou2, hpush2, Bool.false_eq_true, eq_self_iff_true,
                          ite_true, ite_false, verifyTag_trace]
                        simp [pushPaired, pushPairedAux, hfm, hfm2]
  · intro w name sha res w' cs h
    obtain ⟨hres, -, hcs⟩ := createOrUpdateTag_ok h
    rw [hcs, hres]

/-- C4 witness: a fresh tag is written and pushed unforced; on a second
run over the resulting world the same tag is written with force and
force-pushed; the trace pairing holds on both runs. -/
theorem c4_force_push_iff_updated_witness :
    pushPaired (run ⟨"v1.2.3".toList, [], [], false, true, false⟩ wBase).trace = true ∧
    pushPaired (run ⟨"v1.2.3".toList, [], [], false, true, false⟩
      { wBase with localTags := [("v1".toList, shaA)] }).trace = true ∧
    ([Cmd.revParse (tagsRef "v1".toList), Cmd.tagWrite "v1".toList shaA false] =
      [Cmd.revParse (tagsRef "v1".toList),
        Cmd.tagWrite "v1".toList shaA
          (⟨"v1".toList, shaA, true, false⟩ : TagOperationResult).updated]) := by
  refine ⟨?_, ?_, ?_⟩
  · exact c4_force_push_iff_updated.1 ⟨"v1.2.3".toList, [], [], false, true, false⟩ wBase
  · exact c4_force_push_iff_updated.1 ⟨"v1.2.3".toList, [], [], false, true, false⟩
      { wBase with localTags := [("v1".toList, shaA)] }
  · exact c4_force_push_iff_updated.2 wBase "v1".toList shaA
      ⟨"v1".toList, shaA, true, false⟩ { wBase with localTags := [("v1".toList, shaA)] }
      [Cmd.revParse (tagsRef "v1".toList), Cmd.tagWrite "v1".toList shaA false] rfl

/-- C9: two runs that differ only in the `verbose` flag produce the same
failure outcome, the same `majorTag`/`minorTag` outputs, the same final
repository world, and the same sequence of mutating git commands (tag
writes and pushes): verbose adds only read-only `rev-parse` verification
probes, and a verification mismatch is a warning that never changes the
result. -/
theorem c9_verbose_no_effect :
    ∀ (raw : RawInputs) (w0 : World),
      (run { raw with verbose := true } w0).failed =
        (run { raw with verbose := false } w0).failed ∧
      (run { raw with verbose := true } w0).majorTag =
        (run { raw with verbose := false } w0).majorTag ∧
      (run { raw with verbose := true } w0).minorTag =
        (run { raw with verbose := false } w0).minorTag ∧
      (run { raw with verbose := true } w0).world =
        (run { raw with verbose := false } w0).world ∧
      (run { raw with verbose := true } w0).trace.filter isMutation =
        (run { raw with verbose := false } w0).trace.filter isMutation := by
  intro raw w0
  cases ht : raw.tag.isEmpty with
  | true => simp [run, ht]
  | false =>
    cases hp : parseVersion raw.tag with
    | error e => simp [run, ht, hp]
    | ok vi =>
      cases hgate : vi.isPrerelease && raw.ignorePrerelease with
      | true => simp [run, ht, hp, hgate]
      | false =>
        rcases hgc : getCommitSha w0 (if raw.refTag.isEmpty then raw.tag else raw.refTag)
          with ⟨r0, c0⟩
        have hc0 : c0 = [Cmd.revParse (if raw.refTag.isEmpty then raw.tag else raw.refTag)] := by
          have h2 := congrArg Prod.snd hgc
          rw [getCommitSha_trace] at h2
          simpa using h2.symm
        subst hc0
        cases r0 with
        | error e =>
          simp only [run, ht, hp, hgate, hgc, Bool.false_eq_true, eq_self_iff_true,
            ite_true, ite_false]
          simp [isMutation]
        | ok sha =>
          rcases hcou : createOrUpdateTag w0
              (createTagName (if raw.pfx.isEmpty then "v".toList else raw.pfx) vi.major none)
              sha with ⟨r1, w1, c1⟩
          cases r1 with
          | error e =>
            obtain ⟨hw1, hc1⟩ := createOrUpdateTag_err hcou
            subst hc1
            simp only [run, ht, hp, hgate, hgc, hcou, Bool.false_eq_true, eq_self_iff_true,
              ite_true, ite_false]
            simp [isMutation]
          | ok mres =>
            obtain ⟨hres, hw1, hc1⟩ := createOrUpdateTag_ok hcou
            subst hc1
            rcases hpush : pushTag w1
                (createTagName (if raw.pfx.isEmpty then "v".toList else raw.pfx) vi.major none)
                mres.updated with ⟨r2, w2, c2⟩
            cases r2 with
            | error e =>
              obtain ⟨hw2, hc2⟩ := pushTag_err hpush
              subst hc2
              simp only [run, ht, hp, hgate, hgc, hcou, hpush, Bool.false_eq_true,
                eq_self_iff_true, ite_true, ite_false]
              simp [isMutation]
            | ok u =>
              obtain ⟨sha1, hl1, hw2, hc2⟩ := pushTag_ok hpush
              subst hc2
              cases hum : raw.updateMinor with
              | false =>
                simp only [run, ht, hp, hgate, hgc, hcou, hpush, hum,
                  Bool.false_eq_true, eq_self_iff_true, ite_true, ite_false,
                  verifyTag_trace]
                simp [isMutation, List.filter_append]
              | true =>
                rcases hcou2 : createOrUpdateTag w2
                    (createTagName (if raw.pfx.isEmpty then "v".toList else raw.pfx)
                      vi.major (some vi.minor))
                    sha with ⟨r3, w3, c4⟩
                cases r3 with
                | error e =>
                  obtain ⟨hw3, hc4⟩ := createOrUpdateTag_err hcou2
                  subst hc4
                  simp only [run, ht, hp, hgate, hgc, hcou, hpush, hum, hcou2,
                    Bool.false_eq_true, eq_self_iff_true, ite_true, ite_false,
                    verifyTag_trace]
                  simp [isMutation, List.filter_append]
                | ok nres =>
                  obtain ⟨hres2, hw3, hc4⟩ := createOrUpdateTag_ok hcou2
                  subst hc4
                  rcases hpush2 : pushTag w3
                      (createTagName (if raw.pfx.isEmpty then "v".toList else raw.pfx)
                        vi.major (some vi.minor))
                      nres.updated with ⟨r4, w4, c5⟩
                  cases r4 with
                  | error e =>
                    obtain ⟨hw4, hc5⟩ := pushTag_err hpush2
                    subst hc5
                    simp only [run, ht, hp, hgate, hgc, hcou, hpush, hum, hcou2, hpush2,
                      Bool.false_eq_true, eq_self_iff_true, ite_true, ite_false,
                      verifyTag_trace]
                    simp [isMutation, List.filter_append]
                  | ok u2 =>
                    obtain ⟨sha2, hl2, hw4, hc5⟩ := pushTag_ok hpush2
                    subst hc5
                    simp only [run, ht, hp, hgate, hgc, hcou, hpush, hum, hcou2, hpush2,
                      Bool.false_eq_true, eq_self_iff_true, ite_true, ite_false,
                      verifyTag_trace]
                    simp [isMutation, List.filter_append]

/-- C10: whenever a run reports failure but the `majorTag` output was
already set, the failure happened in the minor-tag phase (so `updateMinor`
was on and no `minorTag` output was produced), and the completed
major-tag work is not rolled back: the major tag still exists locally and
on the remote, both pointing at the resolved commit. -/
theorem c10_no_rollback_on_minor_failure :
    ∀ raw w0 n e,
      (run raw w0).majorTag = some n → (run raw w0).failed = some e →
      raw.updateMinor = true ∧ (run raw w0).minorTag = none ∧
      ∃ sha, lookupA n (run raw w0).world.localTags = some sha ∧
        lookupA n (run raw w0).world.remoteTags = some sha := by
  intro raw w0 n e hmaj hfail
  cases ht : raw.tag.isEmpty with
  | true => simp [run, ht] at hmaj
  | false =>
    cases hp : parseVersion raw.tag with
    | error e' => simp [run, ht, hp] at hmaj
    | ok vi =>
      cases hgate : vi.isPrerelease && raw.ignorePrerelease with
      | true => simp [run, ht, hp, hgate] at hmaj
      | false =>
        rcases hgc : getCommitSha w0 (if raw.refTag.isEmpty then raw.tag else raw.refTag)
          with ⟨r0, c0⟩
        cases r0 with
        | error e' =>
          simp only [run, ht, hp, hgate, hgc, Bool.false_eq_true, eq_self_iff_true,
            ite_true, ite_false] at hmaj
          simp at hmaj
        | ok sha =>
          rcases hcou : createOrUpdateTag w0
              (createTagName (if raw.pfx.isEmpty then "v".toList else raw.pfx) vi.major none)
              sha with ⟨r1, w1, c1⟩
          cases r1 with
          | error e' =>
            simp only [run, ht, hp, hgate, hgc, hcou, Bool.false_eq_true, eq_self_iff_true,
              ite_true, ite_false] at hmaj
            simp at hmaj
          | ok mres =>
            obtain ⟨hres, hw1, hc1⟩ := createOrUpdateTag_ok hcou
            rcases hpush : pushTag w1
                (createTagName (if raw.pfx.isEmpty then "v".toList else raw.pfx) vi.major none)
                mres.updated with ⟨r2, w2, c2⟩
            cases r2 with
            | error e' =>
              simp only [run, ht, hp, hgate, hgc, hcou, hpush, Bool.false_eq_true,
                eq_self_iff_true, ite_true, ite_false] at hmaj
              simp at hmaj
            | ok u =>
              obtain ⟨sha1, hl1, hw2, hc2⟩ := pushTag_ok hpush
              have hsha1 : sha = sha1 := by
                rw [hw1] at hl1
                simpa [insertA, lookupA] using hl1
              subst hsha1
              cases hum : raw.updateMinor with
              | false =>
                simp only [run, ht, hp, hgate, hgc, hcou, hpush, hum,
                  Bool.false_eq_true, eq_self_iff_true, ite_true, ite_false] at hfail
                simp at hfail
              | true =>
                rcases hcou2 : createOrUpdateTag w2
                    (createTagName (if raw.pfx.isEmpty then "v".toList else raw.pfx)
                      vi.major (some vi.minor))
                    sha with ⟨r3, w3, c4⟩
                cases r3 with
                | error e' =>
                  obtain ⟨hw3, hc4⟩ := createOrUpdateTag_err hcou2
                  simp only [run, ht, hp, hgate, hgc, hcou, hpush, hum, hcou2,
                    Bool.false_eq_true, eq_self_iff_true, ite_true, ite_false,
                    Option.some.injEq] at hmaj
                  subst hmaj
                  refine ⟨rfl, ?_, sha, ?_, ?_⟩
                  · simp only [run, ht, hp, hgate, hgc, hcou, hpush, hum, hcou2,
                      Bool.false_eq_true, eq_self_iff_true, ite_true, ite_false]
                  · simp only [run, ht, hp, hgate, hgc, hcou, hpush, hum, hcou2,
                      Bool.false_eq_true, eq_self_iff_true, ite_true, ite_false]
                    rw [hw3, hw2, hw1]
                    simp [lookupA_insert_self]
                  · simp only [run, ht, hp, hgate, hgc, hcou, hpush, hum, hcou2,
                      Bool.false_eq_true, eq_self_iff_true, ite_true, ite_false]
                    rw [hw3, hw2]
                    simp [lookupA_insert_self]
                | ok nres =>
                  obtain ⟨hres2, hw3, hc4⟩ := createOrUpdateTag_ok hcou2
                  rcases hpush2 : pushTag w3
                      (createTagName (if raw.pfx.isEmpty then "v".toList else raw.pfx)
                        vi.major (some vi.minor))
                      nres.updated with ⟨r4, w4, c5⟩
                  cases r4 with
                  | error e' =>
                    obtain ⟨hw4, hc5⟩ := pushTag_err hpush2
                    simp only [run, ht, hp, hgate, hgc, hcou, hpush, hum, hcou2, hpush2,
                      Bool.false_eq_true, eq_self_iff_true, ite_true, ite_false,
                      Option.some.injEq] at hmaj
                    subst hmaj
                    have hne : createTagName (if raw.pfx.isEmpty then "v".toList else raw.pfx)
                        vi.major none ≠
                        createTagName (if raw.pfx.isEmpty then "v".toList else raw.pfx)
                          vi.major (some vi.minor) :=
                      createTagName_major_ne_minor _ _ _
                    refine ⟨rfl, ?_, sha, ?_, ?_⟩
                    · simp only [run, ht, hp, hgate, hgc, hcou, hpush, hum, hcou2, hpush2,
                        Bool.false_eq_true, eq_self_iff_true, ite_true, ite_false]
                    · simp only [run, ht, hp, hgate, hgc, hcou, hpush, hum, hcou2, hpush2,
                        Bool.false_eq_true, eq_self_iff_true, ite_true, ite_false]
                      rw [hw4, hw3]
                      simp only [lookupA_insert_ne hne]
                      rw [hw2, hw1]
                      simp [lookupA_insert_self]
                    · simp only [run, ht, hp, hgate, hgc, hcou, hpush, hum, hcou2, hpush2,
                        Bool.false_eq_true, eq_self_iff_true, ite_true, ite_false]
                      rw [hw4, hw3, hw2]
                      simp [lookupA_insert_self]
                  | ok u2 =>
                    simp only [run, ht, hp, hgate, hgc, hcou, hpush, hum, hcou2, hpush2,
                      Bool.false_eq_true, eq_self_iff_true, ite_true, ite_false] at hfail
                    simp at hfail

/-- C10 witness: a run with `updateMinor` in the world that rejects the
`v1.2` push — it fails, leaves the `majorTag` output set, and the pushed
`v1` tag survives locally and remotely. -/
theorem c10_no_rollback_on_minor_failure_witness :
    (run ⟨"v1.2.3".toList, [], [], true, true, false⟩ wMinorRejected).majorTag =
      some "v1".toList ∧
    (run ⟨"v1.2.3".toList, [], [], true, true, false⟩ wMinorRejected).failed =
      some (pushFailMsg "v1.2".toList protectedTagMsg) ∧
    (⟨"v1.2.3".toList, [], [], true, true, false⟩ : RawInputs).updateMinor = true ∧
    (run ⟨"v1.2.3".toList, [], [], true, true, false⟩ wMinorRejected).minorTag = none ∧
    (∃ sha,
      lookupA "v1".toList
        (run ⟨"v1.2.3".toList, [], [], true, true, false⟩ wMinorRejected).world.localTags =
          some sha ∧
      lookupA "v1".toList
        (run ⟨"v1.2.3".toList, [], [], true, true, false⟩ wMinorRejected).world.remoteTags =
          some sha) := by
  refine ⟨rfl, rfl, ?_⟩
  have h := c10_no_rollback_on_minor_failure
    ⟨"v1.2.3".toList, [], [], true, true, false⟩ wMinorRejected "v1".toList
    (pushFailMsg "v1.2".toList protectedTagMsg) rfl rfl
  exact h

end GitFloat
